import Mathlib

/-!
Verification development for the EchelonRanker rank-bot service.

Shallow embedding of the core components named by the specification:
the resilient API client (retry loop, TTL cache, undo slot, health flag)
from the RankBot API client module, the audit log (bounded buffer,
age-based cleanup, IP masking) and the role directory (rank/name lookup
maps) from the audit-log / Roblox-client service files.

JS strings are modelled as `List Char`; JS `Date.now()` instants as `Nat`
milliseconds; JS dynamic field values (which may be `undefined`, `null`,
a number or a string) as the inductive `JSValue`.  Network effects are
modelled by passing the outcome every attempt would observe explicitly.
-/

-- ============================================================
-- Resilient client: constants, errors, retry loop
-- (RankBot API client, `RETRY_CONFIG` and `RankBotAPI.request`)
-- ============================================================

/-- `RETRY_CONFIG.RETRYABLE_CODES` from the client: the whitelist of
HTTP status codes that may be retried. -/
def RETRYABLE_CODES : List Nat := [408, 429, 500, 502, 503, 504]

/-- `RETRY_CONFIG.MAX_RETRIES`: default number of retries after the
first attempt. -/
def MAX_RETRIES : Nat := 3

/-- The `APIError` class: message, HTTP status, error code. -/
structure APIError where
  message : List Char
  status : Nat
  code : List Char
deriving DecidableEq, Repr

/-- `APIError.isConnectionError`: code is `E_CONNECTION` or `E_TIMEOUT`. -/
def APIError.isConnectionError (e : APIError) : Bool :=
  e.code = "E_CONNECTION".toList ∨ e.code = "E_TIMEOUT".toList

/-- `APIError.isRateLimited`: status 429. -/
def APIError.isRateLimited (e : APIError) : Bool :=
  e.status = 429

/-- The error built in the `AbortError` branch of `request`'s catch. -/
def timeoutError : APIError :=
  ⟨"Request timed out".toList, 408, "E_TIMEOUT".toList⟩

/-- The error built in the generic-failure branch of `request`'s catch. -/
def connectionError : APIError :=
  ⟨"Failed to connect to RankBot API. Is the server running?".toList, 0,
    "E_CONNECTION".toList⟩

/-- What one attempt of `request` observes: a 2xx response carrying data,
a non-ok response with a status / message / error code, an abort of the
per-attempt timeout, or a connection-level failure of `fetch`. -/
inductive Outcome where
  | success (data : Nat)
  | httpError (status : Nat) (message : List Char) (errorCode : List Char)
  | timeout
  | connFail
deriving DecidableEq, Repr

/-- The retry loop of `RankBotAPI.request`, with the attempt outcomes given
explicitly.  `first` is what attempt number `attempt` observes and `rest`
the outcomes the remaining attempts would observe, so `rest ≠ []` is
exactly the loop's `attempt < retries`.  The second component is the
client's `isHealthy` flag after the call: it is set `true` on a 2xx
response, set `false` in the connection-failure branch of the catch, and
left untouched everywhere else (in particular on a timeout).
A non-ok response retries only when its status is whitelisted and attempts
remain; a thrown non-retryable `APIError` is rethrown at once by the
catch's retry guard. -/
def runRequest (healthy : Bool) : Outcome → List Outcome → Except APIError Nat × Bool
  | .success d, _ => (.ok d, true)
  | .httpError st m c, [] => (.error ⟨m, st, c⟩, healthy)
  | .httpError st m c, r :: rs =>
      if st ∈ RETRYABLE_CODES then runRequest healthy r rs
      else (.error ⟨m, st, c⟩, healthy)
  | .timeout, [] => (.error timeoutError, healthy)
  | .timeout, r :: rs => runRequest healthy r rs
  | .connFail, [] => (.error connectionError, false)
  | .connFail, r :: rs => runRequest false r rs

instance {ε α : Type} [DecidableEq ε] [DecidableEq α] :
    DecidableEq (Except ε α) := fun a b =>
  match a, b with
  | .ok x, .ok y =>
      if h : x = y then .isTrue (by rw [h])
      else .isFalse (by intro he; cases he; exact h rfl)
  | .ok _, .error _ => .isFalse (by intro he; cases he)
  | .error _, .ok _ => .isFalse (by intro he; cases he)
  | .error x, .error y =>
      if h : x = y then .isTrue (by rw [h])
      else .isFalse (by intro he; cases he; exact h rfl)

/-- `true` iff the request returned normally (no error thrown). -/
def reqOk (r : Except APIError Nat) : Bool :=
  match r with
  | .ok _ => true
  | .error _ => false

-- ============================================================
-- Resilient client: TTL cache, mutating calls, undo slot
-- (`Cache`, `RankBotAPI.setRank`, `getRoles`, `invalidateCache`,
--  `getLastAction`, `undo`)
-- ============================================================

/-- `CACHE_TTL.ROLES` (5 minutes, in ms). -/
def CACHE_TTL_ROLES : Nat := 5 * 60 * 1000

/-- One entry of the client `Cache`: `{ data, expiry }`.  Cached payloads
are abstracted to `Nat`. -/
structure CacheEntry where
  data : Nat
  expiry : Nat
deriving DecidableEq, Repr

/-- The client `Cache`: a `Map` from string keys to entries, modelled as
an association list (each key occurs at most once; `set` replaces). -/
structure Cache where
  store : List (List Char × CacheEntry)
deriving DecidableEq, Repr

/-- `Cache.get`: return the entry's data unless absent or past its
expiry; an expired entry is also deleted.  The returned cache is the
store after that deletion. -/
def Cache.get (c : Cache) (now : Nat) (key : List Char) : Option Nat × Cache :=
  match c.store.find? (fun p => p.1 = key) with
  | none => (none, c)
  | some p =>
      if now > p.2.expiry then
        (none, ⟨c.store.filter (fun q => ¬ q.1 = key)⟩)
      else (some p.2.data, c)

/-- `Cache.set`: store `data` under `key` with expiry `now + ttl`,
replacing any previous entry for `key`. -/
def Cache.set (c : Cache) (now : Nat) (key : List Char) (data ttl : Nat) : Cache :=
  ⟨(key, ⟨data, now + ttl⟩) :: c.store.filter (fun q => ¬ q.1 = key)⟩

/-- `Cache.clear`: drop every entry. -/
def Cache.clear (_ : Cache) : Cache := ⟨[]⟩

/-- The `lastAction` record stored by the mutating calls for `undo`. -/
structure LastAction where
  type : List Char
  userId : Nat
  username : List Char
  oldRank : Nat
  oldRankName : List Char
  newRank : Nat
  newRankName : List Char
  timestamp : Nat
deriving DecidableEq, Repr

/-- The body of a successful ranking response consumed by `setRank`. -/
structure RankResult where
  success : Bool
  changed : Bool
  userId : Nat
  username : List Char
  oldRank : Nat
  oldRankName : List Char
  newRank : Nat
  newRankName : List Char
deriving DecidableEq, Repr

/-- The mutable fields of the `RankBotAPI` client relevant to caching and
undo: the TTL cache and the single `lastAction` slot. -/
structure ClientState where
  lastAction : Option LastAction
  cache : Cache
deriving DecidableEq, Repr

/-- `RankBotAPI.setRank(userId, rank)`: issue `POST /api/rank` (its
response is `api userId rank`, an abstract model of the network) and, when
the result has `success && changed`, store a new `lastAction`.  The body
contains no cache operation.  An error from `request` propagates with the
state unchanged. -/
def setRank (now : Nat) (userId rank : Nat)
    (api : Nat → Nat → Except APIError RankResult) (s : ClientState) :
    Except APIError RankResult × ClientState :=
  match api userId rank with
  | .error e => (.error e, s)
  | .ok r =>
      if r.success ∧ r.changed then
        let la : LastAction :=
          ⟨"rank".toList, userId, r.username, r.oldRank, r.oldRankName,
            r.newRank, r.newRankName, now⟩
        (.ok r, { s with lastAction := some la })
      else (.ok r, s)

/-- `RankBotAPI.setRankByUsername(username, rank)`: issue
`POST /api/rank/username` (response modelled by `api username rank`) and,
when the result has `success && changed`, store a new `lastAction` with
the `userId` resolved from the result.  The body contains no cache
operation. -/
def setRankByUsername (now : Nat) (username : List Char) (rank : Nat)
    (api : List Char → Nat → Except APIError RankResult) (s : ClientState) :
    Except APIError RankResult × ClientState :=
  match api username rank with
  | .error e => (.error e, s)
  | .ok r =>
      if r.success ∧ r.changed then
        let la : LastAction :=
          ⟨"rank".toList, r.userId, username, r.oldRank, r.oldRankName,
            r.newRank, r.newRankName, now⟩
        (.ok r, { s with lastAction := some la })
      else (.ok r, s)

/-- `RankBotAPI.promote(userId)`: issue `POST /api/promote` and, when the
result has `success && changed`, store a `promote` last action.  The body
contains no cache operation. -/
def promote (now : Nat) (userId : Nat)
    (api : Nat → Except APIError RankResult) (s : ClientState) :
    Except APIError RankResult × ClientState :=
  match api userId with
  | .error e => (.error e, s)
  | .ok r =>
      if r.success ∧ r.changed then
        let la : LastAction :=
          ⟨"promote".toList, userId, r.username, r.oldRank, r.oldRankName,
            r.newRank, r.newRankName, now⟩
        (.ok r, { s with lastAction := some la })
      else (.ok r, s)

/-- `RankBotAPI.promoteByUsername(username)`: issue
`POST /api/promote/username`; on a changed success, store a `promote`
last action with the `userId` resolved from the result.  No cache
operation. -/
def promoteByUsername (now : Nat) (username : List Char)
    (api : List Char → Except APIError RankResult) (s : ClientState) :
    Except APIError RankResult × ClientState :=
  match api username with
  | .error e => (.error e, s)
  | .ok r =>
      if r.success ∧ r.changed then
        let la : LastAction :=
          ⟨"promote".toList, r.userId, username, r.oldRank, r.oldRankName,
            r.newRank, r.newRankName, now⟩
        (.ok r, { s with lastAction := some la })
      else (.ok r, s)

/-- `RankBotAPI.demote(userId)`: issue `POST /api/demote`; on a changed
success, store a `demote` last action.  No cache operation. -/
def demote (now : Nat) (userId : Nat)
    (api : Nat → Except APIError RankResult) (s : ClientState) :
    Except APIError RankResult × ClientState :=
  match api userId with
  | .error e => (.error e, s)
  | .ok r =>
      if r.success ∧ r.changed then
        let la : LastAction :=
          ⟨"demote".toList, userId, r.username, r.oldRank, r.oldRankName,
            r.newRank, r.newRankName, now⟩
        (.ok r, { s with lastAction := some la })
      else (.ok r, s)

/-- `RankBotAPI.demoteByUsername(username)`: issue
`POST /api/demote/username`; on a changed success, store a `demote` last
action with the `userId` resolved from the result.  No cache
operation. -/
def demoteByUsername (now : Nat) (username : List Char)
    (api : List Char → Except APIError RankResult) (s : ClientState) :
    Except APIError RankResult × ClientState :=
  match api username with
  | .error e => (.error e, s)
  | .ok r =>
      if r.success ∧ r.changed then
        let la : LastAction :=
          ⟨"demote".toList, r.userId, username, r.oldRank, r.oldRankName,
            r.newRank, r.newRankName, now⟩
        (.ok r, { s with lastAction := some la })
      else (.ok r, s)

/-- `RankBotAPI.bulkRank(users)`: a single pass-through
`POST /api/rank/bulk` request — the body is just `return this.request(...)`,
recording no last action and touching no cache (the users payload and the
response are abstracted to `Nat`). -/
def bulkRank (users : Nat) (api : Nat → Except APIError Nat)
    (s : ClientState) : Except APIError Nat × ClientState :=
  (api users, s)

/-- `RankBotAPI.getRoles(forceRefresh)`: return the cached `roles` entry
unless absent, expired or bypassed; otherwise fetch (`fresh` models what
`GET /api/roles` returns) and cache it with the roles TTL. -/
def getRoles (now : Nat) (forceRefresh : Bool) (fresh : Nat) (c : Cache) :
    Nat × Cache :=
  if forceRefresh then
    (fresh, c.set now "roles".toList fresh CACHE_TTL_ROLES)
  else
    match c.get now "roles".toList with
    | (some d, c') => (d, c')
    | (none, c') => (fresh, c'.set now "roles".toList fresh CACHE_TTL_ROLES)

/-- `RankBotAPI.invalidateCache()`: clear the whole cache. -/
def invalidateCache (s : ClientState) : ClientState :=
  { s with cache := s.cache.clear }

/-- `RankBotAPI.getLastAction()`: `null` when the slot is empty; when the
slot is older than 5 minutes, clear it and return `null`; otherwise
return it. -/
def getLastAction (now : Nat) (s : ClientState) : Option LastAction × ClientState :=
  match s.lastAction with
  | none => (none, s)
  | some a =>
      if now - a.timestamp > 5 * 60 * 1000 then
        (none, { s with lastAction := none })
      else (some a, s)

/-- A JS dynamic value as it appears in audit-entry fields: `undefined`,
`null`, a number, or a string. -/
inductive JSValue where
  | undef
  | null
  | num (n : Int)
  | str (s : List Char)
deriving DecidableEq, Repr

/-- JS truthiness of a `JSValue`: `undefined`, `null`, `0` and `''` are
falsy. -/
def JSValue.truthy : JSValue → Bool
  | .undef => false
  | .null => false
  | .num n => ¬ n = 0
  | .str s => ¬ s = []

/-- JS `a || null`: `a` when truthy, else `null`. -/
def jsOrNull (v : JSValue) : JSValue :=
  if v.truthy then v else .null

/-- The object returned by `undo`: the spread `setRank` result plus the
undone action's data. -/
structure UndoResult where
  result : RankResult
  undoneAction : List Char
  revertedFrom : List Char
  revertedTo : List Char
deriving DecidableEq, Repr

/-- The error thrown by `undo` on an empty or expired slot. -/
def noUndoError : APIError :=
  ⟨"No action to undo".toList, 400, "E_NO_UNDO".toList⟩

/-- `RankBotAPI.undo()`: take the (non-expired) last action or throw
`No action to undo`; re-invoke `setRank` with the stored `userId` and
`oldRank`; if that call returns, set `lastAction` to `null` and return
the result extended with `undoneAction` / `revertedFrom` / `revertedTo`;
if it throws, the error propagates before the clearing line runs. -/
def undo (now : Nat) (api : Nat → Nat → Except APIError RankResult)
    (s : ClientState) : Except APIError UndoResult × ClientState :=
  match getLastAction now s with
  | (none, s') => (.error noUndoError, s')
  | (some a, s') =>
      match setRank now a.userId a.oldRank api s' with
      | (.error e, s'') => (.error e, s'')
      | (.ok r, s'') =>
          (.ok ⟨r, a.type, a.newRankName, a.oldRankName⟩,
            { s'' with lastAction := none })

-- ============================================================
-- AuditLog service (`auditLog.js`): IP masking, add, cleanup
-- ============================================================

/-- JS `String.prototype.split` with a single-character separator:
splits at every occurrence, keeping empty pieces, and yields one piece
even for the empty string. -/
def splitOnChar (sep : Char) : List Char → List (List Char)
  | [] => [[]]
  | ch :: rest =>
      match splitOnChar sep rest with
      | [] => if ch = sep then [[], []] else [[ch]]
      | g :: gs => if ch = sep then [] :: g :: gs else (ch :: g) :: gs

/-- JS `String.prototype.startsWith` on character lists. -/
def listStartsWith : List Char → List Char → Bool
  | [], _ => true
  | _ :: _, [] => false
  | p :: ps, c :: cs => if p = c then listStartsWith ps cs else false

/-- `AuditLog.maskIp` on a non-empty address string, structured exactly as
the source: an IPv4 branch (has `.`, no `:`, four octets), an IPv6 branch
(has `:`, at least four colon groups), a `::ffff:`-mapped branch, and a
fallthrough returning the input. -/
def maskIpStr (ip : List Char) : List Char :=
  let dotParts := splitOnChar '.' ip
  let colonParts := splitOnChar ':' ip
  if '.' ∈ ip ∧ ':' ∉ ip ∧ dotParts.length = 4 then
    dotParts[0]! ++ ['.'] ++ dotParts[1]! ++ ['.'] ++ dotParts[2]! ++ ".xxx".toList
  else if ':' ∈ ip ∧ 4 ≤ colonParts.length then
    List.intercalate [':'] (colonParts.take 4) ++ "::xxxx".toList
  else if listStartsWith "::ffff:".toList ip ∧
      (splitOnChar '.' (ip.drop 7)).length = 4 then
    let p := splitOnChar '.' (ip.drop 7)
    "::ffff:".toList ++ p[0]! ++ ['.'] ++ p[1]! ++ ['.'] ++ p[2]! ++ ".xxx".toList
  else ip

/-- `AuditLog.maskIp`: a missing (`undefined`/`null`) or empty address is
falsy and yields `null`; otherwise mask the string. -/
def maskIp : Option (List Char) → Option (List Char)
  | none => none
  | some s => if s = [] then none else some (maskIpStr s)

/-- The caller-supplied `entry` argument of `AuditLog.add`, with the
dynamically-typed fields as `JSValue`. -/
structure RawEntry where
  action : JSValue
  userId : JSValue
  username : JSValue
  targetRank : JSValue
  oldRank : JSValue
  newRank : JSValue
  success : Bool
  error : JSValue
  ip : Option (List Char)
deriving DecidableEq, Repr

/-- One stored audit record.  `id`'s random suffix is abstracted away
(only its existence matters to the claims); `timestamp` is kept as the
`Date.now()` millisecond instant that the stored ISO string encodes. -/
structure LogEntry where
  id : Nat
  timestamp : Nat
  action : JSValue
  userId : JSValue
  username : JSValue
  targetRank : JSValue
  oldRank : JSValue
  newRank : JSValue
  success : Bool
  error : JSValue
  ip : Option (List Char)
deriving DecidableEq, Repr

/-- The record built at the top of `AuditLog.add`: `username`,
`targetRank`, `oldRank`, `newRank` and `error` default to `null` when
falsy, and `ip` is masked. -/
def mkLogEntry (now : Nat) (entry : RawEntry) : LogEntry :=
  { id := now
    timestamp := now
    action := entry.action
    userId := entry.userId
    username := jsOrNull entry.username
    targetRank := jsOrNull entry.targetRank
    oldRank := jsOrNull entry.oldRank
    newRank := jsOrNull entry.newRank
    success := entry.success
    error := jsOrNull entry.error
    ip := maskIp entry.ip }

/-- The in-memory state of the `AuditLog` service. -/
structure AuditLogState where
  logs : List LogEntry
  maxEntries : Nat
deriving DecidableEq, Repr

/-- `AuditLog.add`: prepend the new record (`unshift`) and truncate the
array to `maxEntries` when it exceeds the capacity; return the new state
and the created record. -/
def auditAdd (now : Nat) (entry : RawEntry) (s : AuditLogState) :
    AuditLogState × LogEntry :=
  let e := mkLogEntry now entry
  let logs' := e :: s.logs
  ({ s with logs := if logs'.length > s.maxEntries then logs'.take s.maxEntries else logs' }, e)

/-- A sequence of `AuditLog.add` calls, oldest first. -/
def auditAddMany (now : Nat) (s : AuditLogState) : List RawEntry → AuditLogState
  | [] => s
  | e :: es => auditAddMany now (auditAdd now e s).1 es

/-- `AuditLog.cleanup`: keep exactly the entries whose timestamp is
strictly after `Date.now() - 3600000` (one hour ago); the capacity bound
plays no part. -/
def auditCleanup (now : Nat) (s : AuditLogState) : AuditLogState :=
  { s with logs := s.logs.filter (fun log => (now : Int) - 3600000 < (log.timestamp : Int)) }

-- ============================================================
-- Role directory (Roblox client): rolesByRank / rolesByName
-- ============================================================

/-- One group role as returned by the platform. -/
structure Role where
  id : Nat
  rank : Nat
  name : List Char
deriving DecidableEq, Repr

/-- Lookup in a JS `Map` built with `new Map(pairs)`: for a duplicated
key the last pair wins. -/
def mapGetLast {α β : Type} [DecidableEq α] (key : α) :
    List (α × β) → Option β
  | [] => none
  | p :: rest =>
      match mapGetLast key rest with
      | some v => some v
      | none => if p.1 = key then some p.2 else none

/-- JS `String.prototype.toLowerCase` on character lists (ASCII). -/
def lowerStr (s : List Char) : List Char := s.map Char.toLower

/-- `rolesByRank` built at `initialize`: `new Map(groupRoles.map(role =>
[role.rank, role]))`. -/
def rolesByRankPairs (roles : List Role) : List (Nat × Role) :=
  roles.map (fun r => (r.rank, r))

/-- `rolesByName` built at `initialize`: `new Map(groupRoles.map(role =>
[role.name.toLowerCase(), role]))`. -/
def rolesByNamePairs (roles : List Role) : List (List Char × Role) :=
  roles.map (fun r => (lowerStr r.name, r))

/-- `getRoleByRank(rank)`: `rolesByRank.get(rank)`. -/
def getRoleByRank (roles : List Role) (rank : Nat) : Option Role :=
  mapGetLast rank (rolesByRankPairs roles)

/-- `getRoleByName(name)`: `rolesByName.get(name.toLowerCase())`. -/
def getRoleByName (roles : List Role) (name : List Char) : Option Role :=
  mapGetLast (lowerStr name) (rolesByNamePairs roles)

-- ============================================================
-- Helper lemmas: retry loop
-- ============================================================

lemma runRequest_http_all (h : Bool) (st : Nat) (m cc : List Char)
    (hst : st ∈ RETRYABLE_CODES) :
    ∀ n : Nat, runRequest h (.httpError st m cc)
      (List.replicate n (.httpError st m cc)) = (.error ⟨m, st, cc⟩, h) := by
  intro n
  induction n with
  | zero => rfl
  | succ k ih =>
      simp only [List.replicate, runRequest, if_pos hst]
      exact ih

lemma runRequest_timeout_all (h : Bool) :
    ∀ n : Nat, runRequest h .timeout (List.replicate n .timeout) =
      (.error timeoutError, h) := by
  intro n
  induction n with
  | zero => rfl
  | succ k ih =>
      simp only [List.replicate, runRequest]
      exact ih

lemma runRequest_connFail_all :
    ∀ (n : Nat) (h : Bool), runRequest h .connFail (List.replicate n .connFail) =
      (.error connectionError, false) := by
  intro n
  induction n with
  | zero => intro h; rfl
  | succ k ih =>
      intro h
      simp only [List.replicate, runRequest]
      exact ih false

lemma runRequest_ok_healthy :
    ∀ (rest : List Outcome) (first : Outcome) (h : Bool),
      reqOk (runRequest h first rest).1 = true → (runRequest h first rest).2 = true := by
  intro rest
  induction rest with
  | nil =>
      intro first h hok
      cases first <;> simp [runRequest, reqOk] at hok ⊢
  | cons r rs ih =>
      intro first h hok
      cases first with
      | success d => simp [runRequest]
      | httpError st m c =>
          simp only [runRequest] at hok ⊢
          by_cases hc : st ∈ RETRYABLE_CODES
          · rw [if_pos hc] at hok ⊢
            exact ih r h hok
          · rw [if_neg hc] at hok
            simp [reqOk] at hok
      | timeout =>
          simp only [runRequest] at hok ⊢
          exact ih r h hok
      | connFail =>
          simp only [runRequest] at hok ⊢
          exact ih r false hok

lemma runRequest_no_connFail :
    ∀ (rest : List Outcome) (first : Outcome) (h : Bool),
      Outcome.connFail ∉ first :: rest →
      reqOk (runRequest h first rest).1 = true ∨ (runRequest h first rest).2 = h := by
  intro rest
  induction rest with
  | nil =>
      intro first h hmem
      cases first with
      | success d => left; rfl
      | httpError st m c => right; rfl
      | timeout => right; rfl
      | connFail => exact absurd (List.mem_singleton.mpr rfl) hmem
  | cons r rs ih =>
      intro first h hmem
      simp only [List.mem_cons, not_or] at hmem
      obtain ⟨hne, hmem'⟩ := hmem
      have hrest : Outcome.connFail ∉ r :: rs := by
        simp only [List.mem_cons, not_or]
        exact hmem'
      cases first with
      | success d => left; rfl
      | httpError st m c =>
          simp only [runRequest]
          by_cases hc : st ∈ RETRYABLE_CODES
          · rw [if_pos hc]
            exact ih r h hrest
          · rw [if_neg hc]
            right; rfl
      | timeout =>
          simp only [runRequest]
          exact ih r h hrest
      | connFail => exact absurd rfl hne

-- ============================================================
-- Claim theorems C1, C8
-- ============================================================

/-- C1: through `RankBotAPI.request`, a response whose status is in the
whitelist {408, 429, 500, 502, 503, 504}, a connection failure, or a
per-attempt timeout is retried until the bounded attempt count (default
`MAX_RETRIES = 3` retries after the first attempt) is exhausted, and then
the last error is thrown; a response with a status outside the whitelist
(for example 403) is thrown immediately whatever attempts remain. -/
theorem c1_retry_policy (h : Bool) (st st' : Nat) (m cc m' cc' : List Char)
    (n : Nat) (rest : List Outcome)
    (hst : st ∈ RETRYABLE_CODES) (hst' : st' ∉ RETRYABLE_CODES) :
    runRequest h (.httpError st m cc) (List.replicate n (.httpError st m cc)) =
      (.error ⟨m, st, cc⟩, h)
    ∧ runRequest h .timeout (List.replicate n .timeout) = (.error timeoutError, h)
    ∧ runRequest h .connFail (List.replicate n .connFail) = (.error connectionError, false)
    ∧ runRequest h (.httpError st' m' cc') rest = (.error ⟨m', st', cc'⟩, h)
    ∧ 403 ∉ RETRYABLE_CODES ∧ MAX_RETRIES = 3 := by
  refine ⟨runRequest_http_all h st m cc hst n, runRequest_timeout_all h n,
    runRequest_connFail_all n h, ?_, by decide, rfl⟩
  cases rest with
  | nil => rfl
  | cons r rs => simp only [runRequest, if_neg hst']

/-- Witness for C1 at a simulated 503 (retried to exhaustion with the
default bound) and a 403 (thrown at once with attempts remaining). -/
theorem c1_retry_policy_witness :
    (503 ∈ RETRYABLE_CODES) ∧ (403 ∉ RETRYABLE_CODES)
    ∧ runRequest true (.httpError 503 "u".toList "E".toList)
        (List.replicate MAX_RETRIES (.httpError 503 "u".toList "E".toList)) =
        (.error ⟨"u".toList, 503, "E".toList⟩, true)
    ∧ runRequest true (.httpError 403 "f".toList "E".toList) [.success 1] =
        (.error ⟨"f".toList, 403, "E".toList⟩, true) := by
  have h := c1_retry_policy true 503 403 "u".toList "E".toList "f".toList "E".toList
    MAX_RETRIES [.success 1] (by decide) (by decide)
  exact ⟨by decide, by decide, h.1, h.2.2.2.1⟩

/-- C8 corrected: the health flag is set `true` after every successful
request; it is set `false` only in the connection-failure branch, so a
request whose attempts contain no connection failure leaves the flag
where it was even when it fails (in particular after timeouts); a request
whose attempts all fail at the connection level ends with the flag
`false`. -/
theorem c8_health_flag (h : Bool) (first : Outcome) (rest : List Outcome) (n : Nat) :
    (reqOk (runRequest h first rest).1 = true → (runRequest h first rest).2 = true)
    ∧ (Outcome.connFail ∉ first :: rest →
        reqOk (runRequest h first rest).1 = true ∨ (runRequest h first rest).2 = h)
    ∧ runRequest h .connFail (List.replicate n .connFail) = (.error connectionError, false) := by
  exact ⟨runRequest_ok_healthy rest first h, runRequest_no_connFail rest first h,
    runRequest_connFail_all n h⟩

/-- Witness for C8 (amended): a success turns the flag on; a pure-timeout
failure leaves the flag untouched; pure connection failures turn it off. -/
theorem c8_health_flag_witness :
    reqOk (runRequest false (.success 5) []).1 = true
    ∧ (runRequest false (.success 5) []).2 = true
    ∧ (Outcome.connFail ∉ ([.timeout, .timeout] : List Outcome))
    ∧ (reqOk (runRequest true .timeout [.timeout]).1 = true
        ∨ (runRequest true .timeout [.timeout]).2 = true)
    ∧ runRequest true .connFail (List.replicate 3 .connFail) =
        (.error connectionError, false) := by
  have h1 := c8_health_flag false (.success 5) ([] : List Outcome) 0
  have h2 := c8_health_flag true .timeout [.timeout] 3
  exact ⟨by decide, h1.1 (by decide), by decide, h2.2.1 (by decide), h2.2.2⟩

/-- C8 as stated is false: a request that exhausts its attempts on
timeouts throws `timeoutError`, which `isConnectionError` classifies as a
connection-class failure, yet the flag stays `true`. -/
theorem c8_counterexample :
    runRequest true .timeout (List.replicate MAX_RETRIES .timeout) =
      (.error timeoutError, true)
    ∧ timeoutError.isConnectionError = true := by decide

-- ============================================================
-- Claim theorems C2, C3
-- ============================================================

/-- Concrete successful-and-changed ranking response for C2. -/
def c2Rank : RankResult :=
  ⟨true, true, 1, "u".toList, 1, "A".toList, 2, "B".toList⟩

/-- A network model whose ranking endpoint always succeeds, for C2. -/
def c2Api : Nat → Nat → Except APIError RankResult := fun _ _ => .ok c2Rank

/-- Client state for C2: the roles cache holds data `7`, stored before the
mutation, valid until instant `1000`. -/
def c2State : ClientState :=
  ⟨none, ⟨[("roles".toList, ⟨7, 1000⟩)]⟩⟩

/-- C2 as stated is false: after a successful, state-changing `setRank`,
a cached `getRoles` read still returns the data (`7`) stored before the
mutation rather than fresh data (`9`). -/
theorem c2_counterexample :
    (setRank 100 1 2 c2Api c2State).1 = .ok c2Rank
    ∧ c2Rank.success = true ∧ c2Rank.changed = true
    ∧ (getRoles 100 false 9 ((setRank 100 1 2 c2Api c2State).2).cache).1 = 7
    ∧ (7 : Nat) ≠ 9 := by decide

lemma cacheGet_expired (now : Nat) (key : List Char) (c : Cache)
    (e : List Char × CacheEntry)
    (hfind : c.store.find? (fun p => p.1 = key) = some e)
    (hexp : now > e.2.expiry) :
    (c.get now key).1 = none := by
  simp only [Cache.get, hfind]
  rw [if_pos hexp]

lemma getRoles_miss (now fresh : Nat) (c : Cache)
    (h : (c.get now "roles".toList).1 = none) :
    (getRoles now false fresh c).1 = fresh := by
  cases hg : c.get now "roles".toList with
  | mk a b =>
      rw [hg] at h
      cases a with
      | none =>
          unfold getRoles
          rw [if_neg Bool.false_ne_true, hg]
      | some d => simp at h

/-- C2 corrected: none of the mutating calls touches the cache — each of
`setRank`, `setRankByUsername`, `promote`, `promoteByUsername`,
`demote`, `demoteByUsername` and `bulkRank` returns with the cache
exactly as it was — and a cached entry stops being served only when its
TTL expires (a read past the stored expiry instant is a miss, and a miss
refetches fresh data), when `invalidateCache` empties the store, or when
the caller passes `forceRefresh`. -/
theorem c2_cache_not_invalidated (now uid rk fresh users : Nat)
    (uname key : List Char)
    (api : Nat → Nat → Except APIError RankResult)
    (apiU : List Char → Nat → Except APIError RankResult)
    (apiP : Nat → Except APIError RankResult)
    (apiPU : List Char → Except APIError RankResult)
    (apiB : Nat → Except APIError Nat)
    (s : ClientState) (c : Cache) (e : List Char × CacheEntry) :
    ((setRank now uid rk api s).2).cache = s.cache
    ∧ ((setRankByUsername now uname rk apiU s).2).cache = s.cache
    ∧ ((promote now uid apiP s).2).cache = s.cache
    ∧ ((promoteByUsername now uname apiPU s).2).cache = s.cache
    ∧ ((demote now uid apiP s).2).cache = s.cache
    ∧ ((demoteByUsername now uname apiPU s).2).cache = s.cache
    ∧ ((bulkRank users apiB s).2).cache = s.cache
    ∧ (c.store.find? (fun p => p.1 = key) = some e → now > e.2.expiry →
        (c.get now key).1 = none)
    ∧ ((c.get now "roles".toList).1 = none →
        (getRoles now false fresh c).1 = fresh)
    ∧ (getRoles now false fresh ((invalidateCache s).cache)).1 = fresh
    ∧ (getRoles now true fresh c).1 = fresh := by
  refine ⟨?_, ?_, ?_, ?_, ?_, ?_, rfl, cacheGet_expired now key c e,
    getRoles_miss now fresh c, rfl, rfl⟩
  · unfold setRank
    cases api uid rk with
    | error e => rfl
    | ok r =>
        by_cases hr : r.success ∧ r.changed
        · simp only [if_pos hr]
        · simp only [if_neg hr]
  · unfold setRankByUsername
    cases apiU uname rk with
    | error e => rfl
    | ok r =>
        by_cases hr : r.success ∧ r.changed
        · simp only [if_pos hr]
        · simp only [if_neg hr]
  · unfold promote
    cases apiP uid with
    | error e => rfl
    | ok r =>
        by_cases hr : r.success ∧ r.changed
        · simp only [if_pos hr]
        · simp only [if_neg hr]
  · unfold promoteByUsername
    cases apiPU uname with
    | error e => rfl
    | ok r =>
        by_cases hr : r.success ∧ r.changed
        · simp only [if_pos hr]
        · simp only [if_neg hr]
  · unfold demote
    cases apiP uid with
    | error e => rfl
    | ok r =>
        by_cases hr : r.success ∧ r.changed
        · simp only [if_pos hr]
        · simp only [if_neg hr]
  · unfold demoteByUsername
    cases apiPU uname with
    | error e => rfl
    | ok r =>
        by_cases hr : r.success ∧ r.changed
        · simp only [if_pos hr]
        · simp only [if_neg hr]

/-- Witness for C2 (amended): a roles entry stored with expiry instant 50
is a miss when read at instant 100, and the read then returns the fresh
data instead of the stale cached value. -/
theorem c2_cache_not_invalidated_witness :
    ((⟨[("roles".toList, ⟨7, 50⟩)]⟩ : Cache).store.find?
        (fun p => p.1 = "roles".toList) = some ("roles".toList, ⟨7, 50⟩))
    ∧ (100 : Nat) > 50
    ∧ ((⟨[("roles".toList, ⟨7, 50⟩)]⟩ : Cache).get 100 "roles".toList).1 = none
    ∧ (getRoles 100 false 9 ⟨[("roles".toList, ⟨7, 50⟩)]⟩).1 = 9 := by
  have h := c2_cache_not_invalidated 100 0 0 9 0 [] "roles".toList
    (fun _ _ => .ok c2Rank) (fun _ _ => .ok c2Rank) (fun _ => .ok c2Rank)
    (fun _ => .ok c2Rank) (fun _ => .ok 0) c2State
    ⟨[("roles".toList, ⟨7, 50⟩)]⟩ ("roles".toList, ⟨7, 50⟩)
  have hmiss := h.2.2.2.2.2.2.2.1 (by decide) (by decide)
  exact ⟨by decide, by decide, hmiss, h.2.2.2.2.2.2.2.2.1 hmiss⟩

/-- Concrete last action for C3, recorded at instant 0. -/
def c3Action : LastAction :=
  ⟨"rank".toList, 42, "u".toList, 3, "Old".toList, 5, "New".toList, 0⟩

/-- The error the ranking endpoint throws in the C3 scenario. -/
def c3Err : APIError := ⟨"boom".toList, 500, "E_API_ERROR".toList⟩

/-- A network model whose ranking endpoint always throws, for C3. -/
def c3ApiErr : Nat → Nat → Except APIError RankResult := fun _ _ => .error c3Err

/-- Client state for C3: a non-expired undo slot holding `c3Action`. -/
def c3State : ClientState := ⟨some c3Action, ⟨[]⟩⟩

/-- C3 as stated is false: with a non-expired slot, when the inner
`setRank` throws, `undo` propagates the error and the slot is NOT
cleared — `lastAction` still holds the action afterwards. -/
theorem c3_counterexample :
    getLastAction 100 c3State = (some c3Action, c3State)
    ∧ undo 100 c3ApiErr c3State = (.error c3Err, c3State)
    ∧ ((undo 100 c3ApiErr c3State).2).lastAction = some c3Action := by decide

/-- C3 corrected: `undo` on an empty or expired slot fails with
`No action to undo` and calls no ranking endpoint (the outcome holds for
every `api`); on a non-expired slot it re-invokes `setRank` with the
stored `userId` and `oldRank`, and clears the slot exactly when that call
returns — returning the reverted-from/reverted-to names — while a thrown
`setRank` error propagates with the slot left in place. -/
theorem c3_undo (now : Nat) (api : Nat → Nat → Except APIError RankResult)
    (s : ClientState) (a : LastAction) (r : RankResult) (e : APIError) :
    (s.lastAction = none → undo now api s = (.error noUndoError, s))
    ∧ (s.lastAction = some a → now - a.timestamp > 5 * 60 * 1000 →
        undo now api s = (.error noUndoError, { s with lastAction := none }))
    ∧ (s.lastAction = some a → ¬(now - a.timestamp > 5 * 60 * 1000) →
        api a.userId a.oldRank = .ok r →
        (undo now api s).1 = .ok ⟨r, a.type, a.newRankName, a.oldRankName⟩
        ∧ ((undo now api s).2).lastAction = none)
    ∧ (s.lastAction = some a → ¬(now - a.timestamp > 5 * 60 * 1000) →
        api a.userId a.oldRank = .error e →
        undo now api s = (.error e, s)) := by
  refine ⟨?_, ?_, ?_, ?_⟩
  · intro h0
    unfold undo getLastAction
    rw [h0]
  · intro h0 hexp
    unfold undo getLastAction
    rw [h0]
    simp only [if_pos hexp]
  · intro h0 hexp hok
    unfold undo getLastAction setRank
    rw [h0]
    simp only [if_neg hexp, hok]
    by_cases hr : r.success ∧ r.changed
    · simp only [if_pos hr]
      exact ⟨trivial, trivial⟩
    · simp only [if_neg hr]
      exact ⟨trivial, trivial⟩
  · intro h0 hexp herr
    unfold undo getLastAction setRank
    rw [h0]
    simp only [if_neg hexp, herr]

/-- Witness for C3 (amended) at the concrete throwing scenario: the slot
holds a fresh action, the endpoint throws, and `undo` propagates the
error with the state unchanged. -/
theorem c3_undo_witness :
    c3State.lastAction = some c3Action
    ∧ ¬(100 - c3Action.timestamp > 5 * 60 * 1000)
    ∧ c3ApiErr c3Action.userId c3Action.oldRank = .error c3Err
    ∧ undo 100 c3ApiErr c3State = (.error c3Err, c3State) := by
  have h := c3_undo 100 c3ApiErr c3State c3Action c2Rank c3Err
  exact ⟨rfl, by decide, rfl, h.2.2.2 rfl (by decide) rfl⟩

-- ============================================================
-- Helper lemmas: bounded buffer
-- ============================================================

lemma take_cons_take {α : Type} (m : Nat) (e : α) (X : List α) :
    List.take m (e :: List.take m X) = List.take m (e :: X) := by
  cases m with
  | zero => rfl
  | succ k =>
      simp only [List.take_succ_cons, List.take_take]
      rw [Nat.min_eq_left (Nat.le_succ k)]

lemma auditAdd_take (now : Nat) (e : RawEntry) (m : Nat) (X : List LogEntry) :
    auditAdd now e ⟨List.take m X, m⟩ =
      (⟨List.take m (mkLogEntry now e :: X), m⟩, mkLogEntry now e) := by
  unfold auditAdd
  dsimp only
  by_cases hlen : (mkLogEntry now e :: List.take m X).length > m
  · rw [if_pos hlen]
    simp only [Prod.mk.injEq, AuditLogState.mk.injEq]
    exact ⟨⟨take_cons_take m _ X, trivial⟩, trivial⟩
  · rw [if_neg hlen]
    push_neg at hlen
    simp only [List.length_cons] at hlen
    have h1 : (List.take m X).length + 1 ≤ m := hlen
    have h2 : X.length < m := by
      rw [List.length_take] at h1
      omega
    have h3 : List.take m X = X := List.take_of_length_le (Nat.le_of_lt h2)
    have h4 : List.take m (mkLogEntry now e :: X) = mkLogEntry now e :: X := by
      apply List.take_of_length_le
      simp only [List.length_cons]
      omega
    simp only [Prod.mk.injEq, AuditLogState.mk.injEq]
    exact ⟨⟨by rw [h3, h4], trivial⟩, trivial⟩

lemma auditAddMany_take (now : Nat) :
    ∀ (L : List RawEntry) (m : Nat) (X : List LogEntry),
      auditAddMany now ⟨List.take m X, m⟩ L =
        ⟨List.take m ((L.map (mkLogEntry now)).reverse ++ X), m⟩ := by
  intro L
  induction L with
  | nil => intro m X; simp [auditAddMany]
  | cons e es ih =>
      intro m X
      unfold auditAddMany
      rw [auditAdd_take]
      rw [ih m (mkLogEntry now e :: X)]
      congr 1
      simp

-- ============================================================
-- Claim theorems C4, C6, C10
-- ============================================================

/-- C4: starting from an empty log, any sequence of `AuditLog.add` calls
leaves exactly the `maxEntries` most recently added entries, newest
first (the buffer equals the reversed insertion order truncated to the
capacity), so the log never holds more than `maxEntries` entries; in
particular 150 insertions at capacity 100 retain exactly 100 entries. -/
theorem c4_audit_capacity (now m : Nat) (L : List RawEntry) (e0 : RawEntry) :
    (auditAddMany now ⟨[], m⟩ L).logs = ((L.map (mkLogEntry now)).reverse).take m
    ∧ (auditAddMany now ⟨[], m⟩ L).logs.length ≤ m
    ∧ ((auditAddMany now ⟨[], 100⟩ (List.replicate 150 e0)).logs).length = 100 := by
  have key : ∀ (mm : Nat) (LL : List RawEntry),
      auditAddMany now ⟨[], mm⟩ LL =
        ⟨List.take mm ((LL.map (mkLogEntry now)).reverse), mm⟩ := by
    intro mm LL
    have h := auditAddMany_take now LL mm []
    simpa using h
  refine ⟨?_, ?_, ?_⟩
  · rw [key m L]
  · rw [key m L]
    simp [List.length_take]
  · rw [key 100]
    simp [List.length_take]

/-- Raw audit entry used in the C6 and C10 scenarios. -/
def c6Raw : RawEntry :=
  ⟨.str "rank".toList, .num 1, .null, .null, .null, .null, true, .null, none⟩

/-- C6 as stated is false at the age boundary: an entry whose timestamp
is exactly one hour before the current time is not "more than one hour"
old, yet `cleanup` removes it (the kept entries are those with
`timestamp > now - 3600000`, strictly). -/
theorem c6_counterexample :
    (auditCleanup 3600000 ⟨[mkLogEntry 0 c6Raw], 100⟩).logs = []
    ∧ ¬(((mkLogEntry 0 c6Raw).timestamp : Int) < (3600000 : Int) - 3600000) := by
  constructor
  · decide
  · decide

/-- C6 corrected: `cleanup` keeps exactly the entries strictly younger
than one hour (timestamp > now − 3600000) and removes all others —
entries aged exactly one hour included — preserving order, independent of
the capacity bound, and removing nothing when every entry is young. -/
theorem c6_cleanup (now : Nat) (s : AuditLogState) (e : LogEntry) :
    (e ∈ (auditCleanup now s).logs ↔
      e ∈ s.logs ∧ (now : Int) - 3600000 < (e.timestamp : Int))
    ∧ ((∀ x ∈ s.logs, (now : Int) - 3600000 < (x.timestamp : Int)) →
        (auditCleanup now s).logs = s.logs)
    ∧ (auditCleanup now s).logs.Sublist s.logs
    ∧ (auditCleanup now s).maxEntries = s.maxEntries := by
  refine ⟨?_, ?_, List.filter_sublist _, rfl⟩
  · simp [auditCleanup, List.mem_filter]
  · intro hall
    simp only [auditCleanup]
    rw [List.filter_eq_self.mpr]
    intro a ha
    simpa using hall a ha

/-- Witness for C6 (amended): a log whose single entry is strictly
younger than one hour is left unchanged by `cleanup`. -/
theorem c6_cleanup_witness :
    (∀ x ∈ ([mkLogEntry 3600000 c6Raw] : List LogEntry),
      (3600000 : Int) - 3600000 < (x.timestamp : Int))
    ∧ (auditCleanup 3600000 ⟨[mkLogEntry 3600000 c6Raw], 50⟩).logs =
        [mkLogEntry 3600000 c6Raw] := by
  have h := c6_cleanup 3600000 ⟨[mkLogEntry 3600000 c6Raw], 50⟩ (mkLogEntry 3600000 c6Raw)
  exact ⟨by decide, h.2.1 (by decide)⟩

/-- C10: `AuditLog.add` stores `null` for every falsy value among
`username`, `targetRank`, `oldRank`, `newRank` and `error`; since the
number `0` is falsy, an entry whose `oldRank` or `newRank` is the valid
rank `0` produces the same record as one with that field absent. -/
theorem c10_falsy_null (now : Nat) (entry : RawEntry) (s : AuditLogState) :
    (entry.username.truthy = false → ((auditAdd now entry s).2).username = JSValue.null)
    ∧ (entry.targetRank.truthy = false → ((auditAdd now entry s).2).targetRank = JSValue.null)
    ∧ (entry.oldRank.truthy = false → ((auditAdd now entry s).2).oldRank = JSValue.null)
    ∧ (entry.newRank.truthy = false → ((auditAdd now entry s).2).newRank = JSValue.null)
    ∧ (entry.error.truthy = false → ((auditAdd now entry s).2).error = JSValue.null)
    ∧ (JSValue.num 0).truthy = false
    ∧ mkLogEntry now { entry with oldRank := JSValue.num 0 } =
        mkLogEntry now { entry with oldRank := JSValue.null }
    ∧ mkLogEntry now { entry with newRank := JSValue.num 0 } =
        mkLogEntry now { entry with newRank := JSValue.null } := by
  refine ⟨?_, ?_, ?_, ?_, ?_, by decide, ?_, ?_⟩
  · intro h; simp [auditAdd, mkLogEntry, jsOrNull, h]
  · intro h; simp [auditAdd, mkLogEntry, jsOrNull, h]
  · intro h; simp [auditAdd, mkLogEntry, jsOrNull, h]
  · intro h; simp [auditAdd, mkLogEntry, jsOrNull, h]
  · intro h; simp [auditAdd, mkLogEntry, jsOrNull, h]
  · simp [mkLogEntry, jsOrNull, JSValue.truthy]
  · simp [mkLogEntry, jsOrNull, JSValue.truthy]

/-- Raw audit entry whose `oldRank` is the valid rank `0`, for C10. -/
def c10Entry : RawEntry :=
  ⟨.str "rank".toList, .num 7, .str "u".toList, .num 3, .num 0, .num 3, true, .null, none⟩

/-- Witness for C10: an entry with `oldRank = 0` is stored with
`oldRank = null`. -/
theorem c10_falsy_null_witness :
    (JSValue.num 0).truthy = false
    ∧ ((auditAdd 5 c10Entry ⟨[], 100⟩).2).oldRank = JSValue.null := by
  have h := c10_falsy_null 5 c10Entry ⟨[], 100⟩
  exact ⟨by decide, h.2.2.1 (by decide)⟩

-- ============================================================
-- Helper lemmas: JS string split / startsWith
-- ============================================================

lemma splitOnChar_ne_nil (c : Char) (s : List Char) : splitOnChar c s ≠ [] := by
  induction s with
  | nil => simp [splitOnChar]
  | cons ch t ih =>
      simp only [splitOnChar]
      cases h : splitOnChar c t with
      | nil => exact absurd h ih
      | cons g gs => by_cases hc : ch = c <;> simp [hc]

lemma length_splitOnChar_cons (c ch : Char) (t : List Char) :
    (splitOnChar c (ch :: t)).length =
      if ch = c then (splitOnChar c t).length + 1 else (splitOnChar c t).length := by
  simp only [splitOnChar]
  cases h : splitOnChar c t with
  | nil => exact absurd h (splitOnChar_ne_nil c t)
  | cons g gs => by_cases hc : ch = c <;> simp [hc]

lemma length_splitOnChar_append (c : Char) (a b : List Char) :
    (splitOnChar c (a ++ b)).length + 1 =
      (splitOnChar c a).length + (splitOnChar c b).length := by
  induction a with
  | nil =>
      simp [splitOnChar]
      omega
  | cons ch t ih =>
      simp only [List.cons_append, length_splitOnChar_cons]
      by_cases hc : ch = c <;> simp [hc] <;> omega

lemma listStartsWith_exists (p : List Char) :
    ∀ s : List Char, listStartsWith p s = true → ∃ t, s = p ++ t := by
  induction p with
  | nil => intro s _; exact ⟨s, rfl⟩
  | cons x ps ih =>
      intro s h
      cases s with
      | nil => simp [listStartsWith] at h
      | cons c cs =>
          simp only [listStartsWith] at h
          by_cases hx : x = c
          · rw [if_pos hx] at h
            obtain ⟨t, ht⟩ := ih cs h
            refine ⟨t, ?_⟩
            rw [hx, ht]
            rfl
          · rw [if_neg hx] at h
            simp at h

lemma ffff_colon_groups (ip : List Char)
    (h : listStartsWith "::ffff:".toList ip = true) :
    ':' ∈ ip ∧ 4 ≤ (splitOnChar ':' ip).length := by
  obtain ⟨t, ht⟩ := listStartsWith_exists _ ip h
  subst ht
  constructor
  · exact List.mem_append.mpr (Or.inl (by decide))
  · have h1 := length_splitOnChar_append ':' "::ffff:".toList t
    have h2 : (splitOnChar ':' "::ffff:".toList).length = 4 := by decide
    have h3 : 0 < (splitOnChar ':' t).length :=
      List.length_pos.mpr (splitOnChar_ne_nil ':' t)
    omega

-- ============================================================
-- Claim theorems C9, C5, C7
-- ============================================================

/-- C9: `AuditLog.maskIp` is total — a missing or empty address yields
`null`; a non-empty address fitting neither the four-octet dotted IPv4
shape (without colons) nor the at-least-four-colon-group shape is
returned unchanged, and `add` then stores that address verbatim in the
record's `ip` field. -/
theorem c9_maskIp_total (ip : List Char) (hne : ip ≠ [])
    (h1 : ¬('.' ∈ ip ∧ ':' ∉ ip ∧ (splitOnChar '.' ip).length = 4))
    (h2 : ¬(':' ∈ ip ∧ 4 ≤ (splitOnChar ':' ip).length)) :
    maskIp none = none
    ∧ maskIp (some []) = none
    ∧ maskIp (some ip) = some ip
    ∧ ∀ (now : Nat) (entry : RawEntry) (s : AuditLogState),
        entry.ip = some ip → ((auditAdd now entry s).2).ip = some ip := by
  have h3 : ¬((listStartsWith "::ffff:".toList ip = true)
      ∧ (splitOnChar '.' (ip.drop 7)).length = 4) := by
    rintro ⟨hsw, -⟩
    exact h2 (ffff_colon_groups ip hsw)
  have hmask : maskIpStr ip = ip := by
    unfold maskIpStr
    dsimp only
    rw [if_neg h1, if_neg h2, if_neg ?_]
    rintro ⟨hsw, hlen⟩
    exact h3 ⟨hsw, hlen⟩
  have hsome : maskIp (some ip) = some ip := by
    simp only [maskIp]
    rw [if_neg hne, hmask]
  refine ⟨rfl, rfl, hsome, ?_⟩
  intro now entry s hip
  show (mkLogEntry now entry).ip = some ip
  simp only [mkLogEntry, hip]
  exact hsome

/-- Witness for C9 at the address `a:b:c` (three colon groups, no valid
IPv4 shape): returned unmasked. -/
theorem c9_maskIp_total_witness :
    ("a:b:c".toList ≠ ([] : List Char))
    ∧ ¬('.' ∈ "a:b:c".toList ∧ ':' ∉ "a:b:c".toList
        ∧ (splitOnChar '.' "a:b:c".toList).length = 4)
    ∧ ¬(':' ∈ "a:b:c".toList ∧ 4 ≤ (splitOnChar ':' "a:b:c".toList).length)
    ∧ maskIp (some "a:b:c".toList) = some "a:b:c".toList := by
  have h := c9_maskIp_total "a:b:c".toList (by decide) (by decide) (by decide)
  exact ⟨by decide, by decide, by decide, h.2.2.1⟩

/-- C5 is right about the IPv4 and plain-IPv6 shapes but wrong about
mapped IPv4-in-IPv6 addresses: the IPv6 branch catches `::ffff:a.b.c.d`
first (its colon split has exactly four groups), so the dedicated
unwrap-and-rewrap branch is unreachable and the result keeps the IPv4
octets unmasked, contradicting the code's own `::ffff:` handling
comment. -/
theorem c5_maskIp_eval :
    maskIpStr "203.0.113.55".toList = "203.0.113.xxx".toList
    ∧ maskIpStr "2001:db8:1:2:3:4:5:6".toList = "2001:db8:1:2::xxxx".toList
    ∧ maskIpStr "::ffff:203.0.113.55".toList = "::ffff:203.0.113.55::xxxx".toList
    ∧ "::ffff:203.0.113.55::xxxx".toList ≠ "::ffff:203.0.113.xxx".toList := by
  refine ⟨by decide, by decide, by decide, by decide⟩

-- ============================================================
-- Helper lemmas: JS Map last-wins lookup
-- ============================================================

lemma mapGetLast_eq_none {α β : Type} [DecidableEq α] (key : α) :
    ∀ pairs : List (α × β), key ∉ pairs.map Prod.fst → mapGetLast key pairs = none := by
  intro pairs
  induction pairs with
  | nil => intro _; rfl
  | cons p rest ih =>
      intro h
      simp only [List.map_cons, List.mem_cons, not_or] at h
      obtain ⟨hh, ht⟩ := h
      have h0 := ih ht
      simp only [mapGetLast, h0]
      exact if_neg (fun he => hh he.symm)

lemma mapGetLast_mem {α β : Type} [DecidableEq α] (key : α) (v : β) :
    ∀ pairs : List (α × β), (pairs.map Prod.fst).Nodup → (key, v) ∈ pairs →
      mapGetLast key pairs = some v := by
  intro pairs
  induction pairs with
  | nil => intro _ hmem; cases hmem
  | cons p rest ih =>
      intro hnd hmem
      simp only [List.map_cons, List.nodup_cons] at hnd
      obtain ⟨hp, hnd'⟩ := hnd
      rcases List.mem_cons.mp hmem with heq | hmem'
      · subst heq
        have h0 : mapGetLast key rest = none :=
          mapGetLast_eq_none key rest (by simpa using hp)
        simp [mapGetLast, h0]
      · have h0 := ih hnd' hmem'
        simp [mapGetLast, h0]

/-- C7: against a snapshot whose ranks and lowercased names are unique
(the stated external invariant), `getRoleByRank` at a present role's rank
and `getRoleByName` at its name in any letter case return that exact
role record, and both lookups return nothing for an absent rank or
name. -/
theorem c7_role_lookup (roles : List Role)
    (h1 : (roles.map Role.rank).Nodup)
    (h2 : (roles.map (fun r => lowerStr r.name)).Nodup) :
    (∀ r ∈ roles, getRoleByRank roles r.rank = some r)
    ∧ (∀ r ∈ roles, ∀ q : List Char, lowerStr q = lowerStr r.name →
        getRoleByName roles q = some r)
    ∧ (∀ rk : Nat, rk ∉ roles.map Role.rank → getRoleByRank roles rk = none)
    ∧ (∀ q : List Char, lowerStr q ∉ roles.map (fun r => lowerStr r.name) →
        getRoleByName roles q = none) := by
  have hmap1 : (rolesByRankPairs roles).map Prod.fst = roles.map Role.rank := by
    simp [rolesByRankPairs, List.map_map]
  have hmap2 : (rolesByNamePairs roles).map Prod.fst =
      roles.map (fun r => lowerStr r.name) := by
    simp [rolesByNamePairs, List.map_map]
  refine ⟨?_, ?_, ?_, ?_⟩
  · intro r hr
    show mapGetLast r.rank (rolesByRankPairs roles) = some r
    apply mapGetLast_mem
    · rw [hmap1]; exact h1
    · exact List.mem_map_of_mem _ hr
  · intro r hr q hq
    show mapGetLast (lowerStr q) (rolesByNamePairs roles) = some r
    rw [hq]
    apply mapGetLast_mem
    · rw [hmap2]; exact h2
    · exact List.mem_map_of_mem _ hr
  · intro rk hrk
    show mapGetLast rk (rolesByRankPairs roles) = none
    apply mapGetLast_eq_none
    rw [hmap1]; exact hrk
  · intro q hq
    show mapGetLast (lowerStr q) (rolesByNamePairs roles) = none
    apply mapGetLast_eq_none
    rw [hmap2]; exact hq

/-- Concrete snapshot for C7's witness. -/
def c7Roles : List Role := [⟨1, 1, "Member".toList⟩, ⟨2, 10, "Admin".toList⟩]

/-- Witness for C7 on a two-role snapshot: lookup by rank 10 and by name
`aDmIn` both return the Admin record; rank 5 is absent. -/
theorem c7_role_lookup_witness :
    ((c7Roles.map Role.rank).Nodup)
    ∧ ((c7Roles.map (fun r => lowerStr r.name)).Nodup)
    ∧ getRoleByRank c7Roles 10 = some ⟨2, 10, "Admin".toList⟩
    ∧ getRoleByName c7Roles "aDmIn".toList = some ⟨2, 10, "Admin".toList⟩
    ∧ getRoleByRank c7Roles 5 = none := by
  have h := c7_role_lookup c7Roles (by decide) (by decide)
  refine ⟨by decide, by decide, ?_, ?_, ?_⟩
  · exact h.1 ⟨2, 10, "Admin".toList⟩ (by decide)
  · exact h.2.1 ⟨2, 10, "Admin".toList⟩ (by decide) "aDmIn".toList (by decide)
  · exact h.2.2.1 5 (by decide)
